import Mathlib

/-
  Verification development for the go-sieve repository (a Sieve email
  filtering language evaluator, RFC 5228 plus extensions).

  The definitions below are a shallow embedding of the interpreter
  subsystem (package `interp`).  Pure Go functions become Lean
  functions over `String` / `List Char`; the per-message mutable
  `RuntimeData` becomes explicit state passing.  Go strings are
  modelled as Lean strings (sequences of Unicode scalar values);
  where a Go function works on raw bytes the comment on the Lean
  definition explains why the character-level model is extensionally
  faithful.  Fallible Go functions returning `(T, error)` become
  `Except`-valued or pair-valued Lean functions.

  Parts of the repository's interpreter are not present in the given
  source tree (the `matcherTest.tryMatch` helper, `expandVars`, the
  `Relational` comparison methods, the glob matcher, `RuntimeData`
  itself and the executors for keep/discard/fileinto/redirect and
  `Script.Execute`).  Those are modelled from the specification, and
  each such definition carries a doc comment starting with
  `Modelled from the spec:`.  Everything else is translated from the
  source files of the repository.
-/

namespace GoSieve

/-! ## Basic string helpers -/

/-- Embeds `toLowerASCII` (matcher.go): folds only the ASCII letters
A-Z to a-z and leaves every other character unchanged.  The Go
function works byte by byte; since bytes 65-90 of UTF-8 occur exactly
as the characters 'A'-'Z', the character-level map below is
extensionally the same function. -/
def toLowerASCII (s : String) : String :=
  ⟨s.data.map (fun c => if 'A' ≤ c ∧ c ≤ 'Z' then Char.ofNat (c.toNat + 32) else c)⟩

/-- Model of Go `strings.ToLower` as used for protected-header and
flag normalisation.  Go applies the Unicode simple lower-case mapping
rune by rune; this model applies the ASCII mapping, which agrees with
Go on all strings used by the interpreter's own constants (they are
pure ASCII). -/
def goToLower (s : String) : String := toLowerASCII s

/-- Model of Go `strings.EqualFold` restricted to the ASCII fold (the
interpreter only ever compares against ASCII constants with it). -/
def goEqualFold (a b : String) : Bool := toLowerASCII a == toLowerASCII b

/-- Helper for `goContains`: does `sub` occur (as a contiguous
sub-sequence) inside the list? Mirrors Go `strings.Contains`. -/
def goContainsList (sub : List Char) : List Char → Bool
  | [] => sub.isEmpty
  | c :: rest => sub.isPrefixOf (c :: rest) || goContainsList sub rest

/-- Embeds Go `strings.Contains s sub`. -/
def goContains (s sub : String) : Bool := goContainsList sub.data s.data

/-- Helper for `goIndex`: index of the first occurrence of `sub`. -/
def goIndexList (sub : List Char) : List Char → Option Nat
  | [] => if sub.isEmpty then some 0 else none
  | c :: rest =>
      if sub.isPrefixOf (c :: rest) then some 0
      else match goIndexList sub rest with
        | some i => some (i + 1)
        | none => none

/-- Embeds Go `strings.Index s sub` (−1 becomes `none`). -/
def goIndex (s sub : String) : Option Nat := goIndexList sub.data s.data

theorem goIndexList_none_iff (sub l : List Char) :
    goIndexList sub l = none ↔ goContainsList sub l = false := by
  induction l with
  | nil =>
      simp only [goIndexList, goContainsList]
      by_cases h : sub.isEmpty <;> simp [h]
  | cons c rest ih =>
      simp only [goIndexList, goContainsList]
      by_cases h : sub.isPrefixOf (c :: rest)
      · simp [h]
      · simp only [h, if_false, Bool.false_or]
        cases hgo : goIndexList sub rest with
        | some i => simp [hgo] at ih ⊢; simpa using ih
        | none => simp [hgo] at ih ⊢; simpa using ih

/-! ## Decimal digits and `numericValue` -/

/-- Embeds Go `unicode.IsDigit`: membership in the Unicode `Nd`
(decimal digit) category, transcribed from the `unicode` package's
range tables. -/
def goIsDigit (c : Char) : Bool :=
  let n := c.toNat
  let inR (lo hi : Nat) : Bool := lo ≤ n && n ≤ hi
  inR 0x30 0x39 || inR 0x660 0x669 || inR 0x6F0 0x6F9 || inR 0x7C0 0x7C9 ||
  inR 0x966 0x96F || inR 0x9E6 0x9EF || inR 0xA66 0xA6F || inR 0xAE6 0xAEF ||
  inR 0xB66 0xB6F || inR 0xBE6 0xBEF || inR 0xC66 0xC6F || inR 0xCE6 0xCEF ||
  inR 0xD66 0xD6F || inR 0xDE6 0xDEF || inR 0xE50 0xE59 || inR 0xED0 0xED9 ||
  inR 0xF20 0xF29 || inR 0x1040 0x1049 || inR 0x1090 0x1099 ||
  inR 0x17E0 0x17E9 || inR 0x1810 0x1819 || inR 0x1946 0x194F ||
  inR 0x19D0 0x19D9 || inR 0x1A80 0x1A89 || inR 0x1A90 0x1A99 ||
  inR 0x1B50 0x1B59 || inR 0x1BB0 0x1BB9 || inR 0x1C40 0x1C49 ||
  inR 0x1C50 0x1C59 || inR 0xA620 0xA629 || inR 0xA8D0 0xA8D9 ||
  inR 0xA900 0xA909 || inR 0xA9D0 0xA9D9 || inR 0xAA50 0xAA59 ||
  inR 0xABF0 0xABF9 || inR 0xFF10 0xFF19 ||
  inR 0x104A0 0x104A9 || inR 0x10D30 0x10D39 || inR 0x11066 0x1106F ||
  inR 0x110F0 0x110F9 || inR 0x11136 0x1113F || inR 0x111D0 0x111D9 ||
  inR 0x112F0 0x112F9 || inR 0x11450 0x11459 || inR 0x114D0 0x114D9 ||
  inR 0x11650 0x11659 || inR 0x116C0 0x116C9 || inR 0x11730 0x11739 ||
  inR 0x118E0 0x118E9 || inR 0x11950 0x11959 || inR 0x11C50 0x11C59 ||
  inR 0x11D50 0x11D59 || inR 0x11DA0 0x11DA9 || inR 0x16A60 0x16A69 ||
  inR 0x16B50 0x16B59 || inR 0x1D7CE 0x1D7FF || inR 0x1E140 0x1E149 ||
  inR 0x1E2F0 0x1E2F9 || inR 0x1E950 0x1E959 || inR 0x1FBF0 0x1FBF9

/-- Is `c` one of the ASCII digits '0'-'9'?  (The only digits accepted
by Go's `strconv.ParseUint`.) -/
def isAsciiDigit (c : Char) : Bool := '0' ≤ c && c ≤ '9'

/-- Value of a run of ASCII digits read in base 10 (most significant
first).  Specification-side helper used to state what "the integer
denoted by the leading run of digits" means. -/
def digitsToNat (cs : List Char) : Nat :=
  cs.foldl (fun acc c => 10 * acc + (c.toNat - '0'.toNat)) 0

/-- Embeds the contract of Go `strconv.ParseUint(s, 10, 64)`: succeeds
exactly on a non-empty string of ASCII digits whose value fits in 64
bits, returning that value; any other input (including a run
containing non-ASCII Unicode digits, and any value above 2^64−1)
produces an error, modelled as `none`. -/
def goParseUint64 (cs : List Char) : Option Nat :=
  if cs.isEmpty then none
  else if cs.all isAsciiDigit then
    if digitsToNat cs < 2 ^ 64 then some (digitsToNat cs) else none
  else none

/-- Embeds `numericValue` (matcher.go, RFC 4790 §9.1 helper): `none`
when the string is empty or does not start with a Unicode decimal
digit; otherwise the Go code takes the prefix of the rune slice up to
the first non-digit (the whole string when every rune is a digit),
which is exactly `takeWhile goIsDigit`, and feeds it to
`strconv.ParseUint(…, 10, 64)`. -/
def numericValue (s : String) : Option Nat :=
  match s.data with
  | [] => none
  | c :: _ =>
      if !goIsDigit c then none
      else goParseUint64 (s.data.takeWhile goIsDigit)

/-! ## Comparators, match-types, relational operators -/

/-- Embeds the `Match` string constants (matcher.go).  The extra
constructor `unspecified` stands for the Go zero value `""` (a
matcher whose match-type was never set). -/
inductive Match where
  | contains | is | matches | value | count | regex | unspecified
deriving DecidableEq, Repr

/-- Embeds the `Comparator` string constants (matcher.go). -/
inductive Comparator where
  | octet | asciiCasemap | asciiNumeric | unicodeCasemap
deriving DecidableEq, Repr

/-- Embeds the `AddressPart` string constants (matcher.go), including
the RFC 5233 subaddress parts. -/
inductive AddressPart where
  | localpart | domain | all | user | detail
deriving DecidableEq, Repr

/-- Embeds the `Relational` values (`lt`,`le`,`eq`,`ne`,`gt`,`ge`);
`unspecified` is the Go zero value `""`. -/
inductive Relational where
  | lt | le | eq | ne | gt | ge | unspecified
deriving DecidableEq, Repr

/-- Modelled from the spec: the relational predicates on strings
("relational predicates", §4.4); the implementation file is not in
the source tree.  Ordinary lexicographic string comparison. -/
def Relational.CompareString : Relational → String → String → Bool
  | .lt, a, b => decide (a < b)
  | .le, a, b => decide (a < b) || a == b
  | .eq, a, b => a == b
  | .ne, a, b => a != b
  | .gt, a, b => decide (b < a)
  | .ge, a, b => decide (b < a) || a == b
  | .unspecified, _, _ => false

/-- Modelled from the spec: comparison of optional numeric values for
the `i;ascii-numeric` comparator (§4.4: "`None` means no digits;
equality/order defined so that presence-of-digits beats absence",
i.e. RFC 4790 §9.1: strings without digits sort above every number
and are equal to each other). -/
def Relational.CompareNumericValue : Relational → Option Nat → Option Nat → Bool
  | rel, some a, some b =>
      match rel with
      | .lt => decide (a < b) | .le => decide (a ≤ b)
      | .eq => a == b         | .ne => a != b
      | .gt => decide (b < a) | .ge => decide (b ≤ a)
      | .unspecified => false
  | rel, some _, none =>
      match rel with
      | .lt => true | .le => true | .ne => true
      | _ => false
  | rel, none, some _ =>
      match rel with
      | .gt => true | .ge => true | .ne => true
      | _ => false
  | rel, none, none =>
      match rel with
      | .eq => true | .le => true | .ge => true
      | _ => false

/-! ## Glob matching (`:matches`) -/

/-- Modelled from the spec: the glob matcher behind `matchOctet` /
`matchUnicode` (§4.4: "glob with `*`/`?`, `\` escapes"); the
implementation file is not in the source tree.  `fold` lower-cases
both sides before comparing single characters. -/
def globMatch (fold : Bool) : List Char → List Char → Bool
  | [], [] => true
  | [], _ :: _ => false
  | '*' :: ps, v =>
      globMatch fold ps v ||
        (match v with
         | [] => false
         | _ :: vs => globMatch fold ('*' :: ps) vs)
  | '?' :: ps, _ :: vs => globMatch fold ps vs
  | '\\' :: p :: ps, c :: vs =>
      (if fold then toLowerASCII ⟨[p]⟩ == toLowerASCII ⟨[c]⟩ else p == c) &&
        globMatch fold ps vs
  | p :: ps, c :: vs =>
      (if fold then toLowerASCII ⟨[p]⟩ == toLowerASCII ⟨[c]⟩ else p == c) &&
        globMatch fold ps vs
  | _ :: _, [] => false
  termination_by ps v => (ps.length, v.length)

/-! ## Bounded regex execution -/

/-- Error kinds produced by the matcher engine.  `limitExceeded`
covers the regex execution budget (pattern length, input length, and
the wall-clock budget) — the spec's `MatchLimit`; `compileError` is a
malformed pattern; `unsupported` is `ErrComparatorMatchUnsupported`
(matcher.go). -/
inductive MatchErr where
  | limitExceeded | compileError | unsupported
deriving DecidableEq, Repr

/-- Outcome of handing a pattern to the Go `regexp` compiler within
the 100 ms budget (regex.go `CompileSafeRegex`): compiled fine, a
compile error, or the deadline elapsed. -/
inductive CompileOutcome where
  | ok | compileErr | timeout
deriving DecidableEq, Repr

/-- Outcome of running a compiled pattern on an input within the
100 ms budget (regex.go `FindSubmatch`): submatch found (with capture
groups, group 0 the whole match), no match, or the deadline elapsed. -/
inductive FindOutcome where
  | found (caps : List String) | notFound | timeout
deriving DecidableEq, Repr

/-- The Go standard-library regex engine together with the wall
clock, abstracted: what compiling a pattern does, and what running it
on an input does.  Both real time and the `regexp` package are
outside the repository, so theorems quantify over every engine. -/
structure RegexEngine where
  compile : String → CompileOutcome
  find : String → String → FindOutcome

/-- Embeds `RegexLimits` (regex.go). -/
structure RegexLimits where
  maxPatternLength : Nat
  maxInputLength : Nat
deriving DecidableEq, Repr

/-- Embeds `DefaultRegexLimits` (regex.go): pattern ≤ 1000 bytes,
input ≤ 10000 bytes, 100 ms of wall clock (the clock lives in
`RegexEngine`). -/
def DefaultRegexLimits : RegexLimits := ⟨1000, 10000⟩

/-- Embeds `CompileSafeRegex` (regex.go): reject patterns longer than
`maxPatternLength` (Go `len`, i.e. UTF-8 bytes), then compile under
the deadline.  A successful compile yields the pattern itself as the
matcher (the compiled automaton is inside the engine). -/
def CompileSafeRegex (eng : RegexEngine) (pattern : String) (limits : RegexLimits) :
    Except MatchErr String :=
  if pattern.utf8ByteSize > limits.maxPatternLength then .error .limitExceeded
  else
    match eng.compile pattern with
    | .ok => .ok pattern
    | .compileErr => .error .compileError
    | .timeout => .error .limitExceeded

/-- Embeds `SafeRegexMatcher.FindSubmatch` (regex.go): reject inputs
longer than `maxInputLength` bytes, then run under the deadline;
`none` is Go's nil slice (no match). -/
def SafeFindSubmatch (eng : RegexEngine) (pattern input : String) (limits : RegexLimits) :
    Except MatchErr (Option (List String)) :=
  if input.utf8ByteSize > limits.maxInputLength then .error .limitExceeded
  else
    match eng.find pattern input with
    | .found caps => .ok (some caps)
    | .notFound => .ok none
    | .timeout => .error .limitExceeded

/-- Embeds `matchRegex` (matcher.go): compile safely, run safely, and
return `(matched, captures, error)`. -/
def matchRegex (eng : RegexEngine) (pattern value : String) :
    Bool × List String × Option MatchErr :=
  match CompileSafeRegex eng pattern DefaultRegexLimits with
  | .error e => (false, [], some e)
  | .ok m =>
      match SafeFindSubmatch eng m value DefaultRegexLimits with
      | .error e => (false, [], some e)
      | .ok none => (false, [], none)
      | .ok (some caps) => (true, caps, none)

/-! ## `testString`: one (comparator, match-type) comparison -/

/-- Embeds `testString` (matcher.go): dispatch on comparator and
match-type; returns `(result, captures, error)`.  `MatchCount` panics
in Go ("testString should not be used with MatchCount"); the panic is
modelled as an `unsupported` error (no caller in this development
reaches it).  The Go `default` fall-through for an unset match-type
returns `(false, nil, nil)`. -/
def testString (eng : RegexEngine) (comparator : Comparator) (mtch : Match)
    (rel : Relational) (value key : String) : Bool × List String × Option MatchErr :=
  match comparator, mtch with
  | .octet, .contains => (goContains value key, [], none)
  | .octet, .is => (value == key, [], none)
  | .octet, .matches => (globMatch false key.data value.data, [], none)
  | .octet, .regex => matchRegex eng key value
  | .octet, .value => (rel.CompareString value key, [], none)
  | .octet, .count => (false, [], some .unsupported)
  | .asciiNumeric, .contains => (false, [], some .unsupported)
  | .asciiNumeric, .is =>
      (Relational.eq.CompareNumericValue (numericValue value) (numericValue key), [], none)
  | .asciiNumeric, .matches => (false, [], some .unsupported)
  | .asciiNumeric, .regex => (false, [], some .unsupported)
  | .asciiNumeric, .value =>
      (rel.CompareNumericValue (numericValue value) (numericValue key), [], none)
  | .asciiNumeric, .count => (false, [], some .unsupported)
  | .asciiCasemap, .contains =>
      (goContains (toLowerASCII value) (toLowerASCII key), [], none)
  | .asciiCasemap, .is => (toLowerASCII value == toLowerASCII key, [], none)
  | .asciiCasemap, .matches => (globMatch true key.data value.data, [], none)
  | .asciiCasemap, .regex => matchRegex eng key (toLowerASCII value)
  | .asciiCasemap, .value =>
      (rel.CompareString (toLowerASCII value) (toLowerASCII key), [], none)
  | .asciiCasemap, .count => (false, [], some .unsupported)
  | .unicodeCasemap, .contains =>
      (goContains (goToLower value) (goToLower key), [], none)
  | .unicodeCasemap, .is => (goEqualFold value key, [], none)
  | .unicodeCasemap, .matches => (globMatch true key.data value.data, [], none)
  | .unicodeCasemap, .regex => matchRegex eng key (goToLower value)
  | .unicodeCasemap, .value =>
      (rel.CompareString (toLowerASCII value) (toLowerASCII key), [], none)
  | .unicodeCasemap, .count => (false, [], some .unsupported)
  | _, .unspecified => (false, [], none)

/-! ## Runtime data -/

/-- Embeds `VacationResponse` (vacation command, RFC 5230). -/
structure VacationResponse where
  From : String
  Subject : String
  Body : String
  IsMime : Bool
  Handle : String
  Days : Int
deriving DecidableEq, Repr

/-- Embeds `HeaderEdit` (editheader.go); the Go `Action` string is the
two-valued tag below. -/
inductive HeaderEditAction where
  | add | delete
deriving DecidableEq, Repr

/-- Embeds `HeaderEdit` (editheader.go): one journal entry of the
header-edit overlay. -/
structure HeaderEdit where
  Action : HeaderEditAction
  FieldName : String
  Value : String
  Last : Bool
  Index : Int
deriving DecidableEq, Repr

/-- Modelled from the spec: the per-message evaluation state
`RuntimeData` (§3).  The host-supplied `Envelope` and `Message`
interfaces become the string fields and the total `msgHeaders`
function (`HeaderGet` of the static message never fails);
`VacationResponses` (a Go map) becomes an association list;
`Variables` likewise. -/
structure RuntimeData where
  EnvelopeFrom : String
  EnvelopeTo : String
  EnvelopeAuth : String
  MsgHeaders : String → List String
  MsgSize : Nat
  Variables : List (String × String)
  ImplicitKeep : Bool
  Keep : Bool
  Mailboxes : List String
  RedirectAddr : List String
  MaxRedirects : Nat
  Flags : List String
  HeaderEdits : List HeaderEdit
  VacationResponses : List (String × VacationResponse)

/-- Modelled from the spec: RFC 5229 variable expansion `expandVars`
(the variables implementation is not in the source tree).  A
state-machine scan: outside `${…}` characters are copied (`acc =
none`); after `${` the name is collected (`acc = some r` with the
reversed name so far); a closing `}` substitutes the variable's
value, empty when unset per RFC 5229 (names are stored lower-cased);
an unterminated `${` is emitted literally. -/
def expandLoop (vars : List (String × String)) :
    List Char → Option (List Char) → List Char
  | [], none => []
  | [], some r => '$' :: '{' :: r.reverse
  | '$' :: '{' :: rest2, none => expandLoop vars rest2 (some [])
  | c :: rest, none => c :: expandLoop vars rest none
  | c :: rest, some r =>
      if c = '}' then
        (((vars.lookup (goToLower ⟨r.reverse⟩)).getD "").data) ++ expandLoop vars rest none
      else expandLoop vars rest (some (c :: r))

/-- Variable expansion on a whole string, in the runtime state `d`. -/
def expandVars (d : RuntimeData) (s : String) : String :=
  ⟨expandLoop d.Variables s.data none⟩

/-- Embeds `expandVarsList`: expansion mapped over a string list. -/
def expandVarsList (d : RuntimeData) (l : List String) : List String :=
  l.map (expandVars d)

/-! ## Header-edit overlay -/

/-- Delete the first occurrence of `value` (Go's `deleted` flag in
the delete-by-value loop of `applyHeaderEditsToValues`). -/
def delFirstValue (value : String) : List String → List String
  | [] => []
  | v :: vs => if v = value then vs else v :: delFirstValue value vs

/-- Embeds `applyHeaderEditsToValues` (editheader.go): replay the
journal over the base values of `fieldName`.  Go's
`strings.EqualFold` on field names is `goEqualFold`; `append` at the
front/back, deletion by 1-based index (`Last` counts from the end,
via Go `int` arithmetic, hence the `Int` detour), deletion of the
first value-equal occurrence, and blanket deletion, exactly as in the
source. -/
def applyHeaderEditsToValues (edits : List HeaderEdit) (fieldName : String)
    (values : List String) : List String :=
  edits.foldl
    (fun result edit =>
      if !goEqualFold edit.FieldName fieldName then result
      else
        match edit.Action with
        | .add => if edit.Last then result ++ [edit.Value] else edit.Value :: result
        | .delete =>
            if edit.Index > 0 then
              let idx : Int := if edit.Last then (result.length : Int) - edit.Index
                               else edit.Index - 1
              if 0 ≤ idx ∧ idx < (result.length : Int) then result.eraseIdx idx.toNat
              else result
            else if edit.Value ≠ "" then delFirstValue edit.Value result
            else [])
    values

/-- The message view the tests read: base headers with the edit
journal applied (`EditableMessage.HeaderGet`, editheader.go; the
`RuntimeData` constructor wraps the message so every `HeaderGet` in
the interpreter sees the overlay). -/
def msgGet (d : RuntimeData) (fieldName : String) : List String :=
  applyHeaderEditsToValues d.HeaderEdits fieldName (d.MsgHeaders fieldName)

/-! ## The shared matcher (`matcherTest`) -/

/-- Embeds the `matcherTest` mix-in (`comparator`, `match`, relational
and key list shared by every test that takes keys).  `matchType` is
the Go field `match` (a Lean keyword). -/
structure MatcherTest where
  comparator : Comparator
  matchType : Match
  rel : Relational
  keys : List String
deriving Repr

/-- Embeds `matcherTest.isCount`. -/
def MatcherTest.isCount (m : MatcherTest) : Bool := m.matchType == .count

/-- Modelled from the spec: `matcherTest.tryMatch` (not in the source
tree).  Tries the value against each (variable-expanded) key with
`testString`; a `MatchLimit` error (regex budget exceeded, §7) is
absorbed — the key simply does not match — while other matcher errors
propagate; capture-variable population is outside this model (no
claim concerns it). -/
def MatcherTest.tryMatch (eng : RegexEngine) (m : MatcherTest) (d : RuntimeData)
    (value : String) : Except MatchErr Bool :=
  go m.keys
where
  go : List String → Except MatchErr Bool
  | [] => .ok false
  | key :: rest =>
      match testString eng m.comparator m.matchType m.rel value (expandVars d key) with
      | (_, _, some .limitExceeded) => go rest
      | (_, _, some e) => .error e
      | (true, _, none) => .ok true
      | (false, _, none) => go rest

/-- Modelled from the spec: `matcherTest.countMatches` (§4.4 "coerce
aggregated entry count to decimal and apply relational"): the entry
count, as a number, is compared against each key under the
relational. -/
def MatcherTest.countMatches (m : MatcherTest) (d : RuntimeData) (n : Nat) : Bool :=
  m.keys.any fun key =>
    m.rel.CompareNumericValue (some n) (numericValue (expandVars d key))

/-! ## Addresses and the subaddress extension -/

/-- Embeds `split` (matcher.go): split an address at the **last** `@`
into local part (mailbox) and domain; `postmaster` (case-insensitive)
has no domain; missing `@`, empty local part and empty domain are
errors (the Go error strings are the payload). -/
def split (addr : String) : Except String (String × String) :=
  if goEqualFold addr "postmaster" then .ok (addr, "")
  else
    match goIndexList (['@']) addr.data.reverse with
    | none => .error "address: missing at-sign"
    | some revIdx =>
        let indx := addr.data.length - 1 - revIdx
        let mailbox : String := ⟨addr.data.take indx⟩
        let domain : String := ⟨addr.data.drop (indx + 1)⟩
        if mailbox = "" then .error "address: empty local-part"
        else if domain = "" then .error "address: empty domain"
        else .ok (mailbox, domain)

/-- Embeds `SubaddressSeparator` (matcher.go): the default `+`. -/
def SubaddressSeparator : String := "+"

/-- Embeds `splitSubaddress` (matcher.go): split the local part at
the first separator; with no separator the whole local part is the
user and the detail is empty. -/
def splitSubaddress (localPart : String) : String × String :=
  match goIndex localPart SubaddressSeparator with
  | none => (localPart, "")
  | some idx =>
      (⟨localPart.data.take idx⟩,
       ⟨localPart.data.drop (idx + SubaddressSeparator.data.length)⟩)

/-- Embeds `testAddress` (matcher.go): extract the configured address
part (`all`/`localpart`/`domain`/`user`/`detail`) and run the
matcher; `<>` is the empty address; a malformed address fails to
match; per RFC 5233 §4, `:detail` fails to match when the local part
has no separator. -/
def testAddress (eng : RegexEngine) (d : RuntimeData) (matcher : MatcherTest)
    (part : AddressPart) (address : String) : Except MatchErr Bool :=
  let address := if address = "<>" then "" else address
  let valueToCompare? : Except Unit String :=
    if address ≠ "" then
      match part with
      | .localpart =>
          match split address with
          | .error _ => .error ()
          | .ok (localPart, _) => .ok localPart
      | .domain =>
          match split address with
          | .error _ => .error ()
          | .ok (_, domain) => .ok domain
      | .all => .ok address
      | .user =>
          match split address with
          | .error _ => .error ()
          | .ok (localPart, _) => .ok (splitSubaddress localPart).1
      | .detail =>
          match split address with
          | .error _ => .error ()
          | .ok (localPart, _) =>
              let detail := (splitSubaddress localPart).2
              if detail = "" ∧ !goContains localPart SubaddressSeparator then
                .error ()
              else .ok detail
    else .ok ""
  match valueToCompare? with
  | .error () => .ok false
  | .ok valueToCompare => matcher.tryMatch eng d valueToCompare

/-! ## editheader: addheader / deleteheader -/

/-- Embeds `isValidHeaderName` (editheader.go): RFC 2822 `field-name`
— non-empty, every character in 33…126 and not `:`.  The Go function
inspects bytes; a character above 126 is encoded only with bytes
above 126, so checking characters gives the same verdict. -/
def isValidHeaderName (name : String) : Bool :=
  !name.data.isEmpty &&
    name.data.all (fun c => 33 ≤ c.toNat && c.toNat ≤ 126 && c ≠ ':')

/-- Embeds `protectedHeaders`/`isProtectedHeader` (editheader.go):
`received` and `auto-submitted`, after lower-casing. -/
def isProtectedHeader (name : String) : Bool :=
  goToLower name == "received" || goToLower name == "auto-submitted"

/-- Embeds `CmdAddHeader` (editheader.go). -/
structure CmdAddHeader where
  FieldName : String
  Value : String
  Last : Bool
deriving DecidableEq, Repr

/-- Embeds `CmdDeleteHeader` (editheader.go). -/
structure CmdDeleteHeader where
  matcherTest : MatcherTest
  FieldName : String
  ValuePatterns : List String
  Index : Int
  Last : Bool

/-- Embeds `CmdAddHeader.Execute`'s decision of which journal entries
to append: none when the (expanded) field name is invalid (RFC 5293
§6: silently ignored), else the one `add` entry.  The Go method only
ever appends to `d.HeaderEdits`, so it is factored as state plus this
entry list. -/
def addheaderEdits (c : CmdAddHeader) (d : RuntimeData) : List HeaderEdit :=
  let fieldName := expandVars d c.FieldName
  let value := expandVars d c.Value
  if !isValidHeaderName fieldName then []
  else [{ Action := .add, FieldName := fieldName, Value := value,
          Last := c.Last, Index := 0 }]

/-- Embeds `CmdAddHeader.Execute` (editheader.go): always succeeds;
appends `addheaderEdits`. -/
def addheaderExecute (c : CmdAddHeader) (d : RuntimeData) : RuntimeData :=
  { d with HeaderEdits := d.HeaderEdits ++ addheaderEdits c d }

/-- Embeds `CmdDeleteHeader.valueMatchesPatterns` (editheader.go):
trim the value, then for each pattern ask the stored matcher (which
already holds the patterns as keys — the loop variable itself is only
used by the fallback `:is` comparison taken when no match-type was
set). -/
def valueMatchesPatterns (eng : RegexEngine) (c : CmdDeleteHeader) (d : RuntimeData)
    (value : String) (patterns : List String) : Except MatchErr Bool :=
  go patterns (value.trim)
where
  go : List String → String → Except MatchErr Bool
  | [], _ => .ok false
  | pattern :: rest, v =>
      match c.matcherTest.tryMatch eng d v with
      | .error e => .error e
      | .ok true => .ok true
      | .ok false =>
          if c.matcherTest.matchType == .unspecified then
            match testString eng c.matcherTest.comparator .is .unspecified v pattern with
            | (_, _, some e) => .error e
            | (true, _, none) => .ok true
            | (false, _, none) => go rest v
          else go rest v

/-- Embeds `CmdDeleteHeader.Execute`'s decision of which journal
entries to append (the method only ever appends to `d.HeaderEdits`):
nothing for an invalid or protected (`Received`/`Auto-Submitted`)
field name; a blanket/indexed `delete` entry when no value patterns
were given; otherwise one `delete` entry per matching current value
(or the one indexed value), matching errors skipping the value. -/
def deleteheaderEdits (eng : RegexEngine) (c : CmdDeleteHeader) (d : RuntimeData) :
    List HeaderEdit :=
  let fieldName := expandVars d c.FieldName
  if !isValidHeaderName fieldName then []
  else if isProtectedHeader fieldName then []
  else
    let valuePatterns := expandVarsList d c.ValuePatterns
    if valuePatterns.isEmpty then
      [{ Action := .delete, FieldName := fieldName, Value := "",
         Index := c.Index, Last := c.Last }]
    else
      -- `d.Msg.HeaderGet` reads through the edit overlay, and the Go
      -- method then applies the edits once more, as written there.
      let values := applyHeaderEditsToValues d.HeaderEdits fieldName (msgGet d fieldName)
      if values.isEmpty then []
      else if c.Index > 0 then
        let idx : Int := if c.Last then (values.length : Int) - c.Index else c.Index - 1
        if h : 0 ≤ idx ∧ idx < (values.length : Int) then
          let v := values.get ⟨idx.toNat, by omega⟩
          match valueMatchesPatterns eng c d v valuePatterns with
          | .ok true => [{ Action := .delete, FieldName := fieldName, Value := v,
                           Index := c.Index, Last := c.Last }]
          | _ => []
        else []
      else
        values.filterMap fun v =>
          match valueMatchesPatterns eng c d v valuePatterns with
          | .ok true => some { Action := .delete, FieldName := fieldName, Value := v,
                               Last := false, Index := 0 }
          | _ => none

/-- Embeds `CmdDeleteHeader.Execute` (editheader.go): always
succeeds; appends `deleteheaderEdits`. -/
def deleteheaderExecute (eng : RegexEngine) (c : CmdDeleteHeader) (d : RuntimeData) :
    RuntimeData :=
  { d with HeaderEdits := d.HeaderEdits ++ deleteheaderEdits eng c d }

/-! ## vacation -/

/-- Embeds `CmdVacation` (vacation.go). -/
structure CmdVacation where
  Days : Int
  Subject : String
  From : String
  Addresses : List String
  Mime : Bool
  Handle : String
  Reason : String
deriving DecidableEq, Repr

/-- The optional arguments the loader may bind for `vacation`
(RFC 5230 syntax, load_vacation.go): `none` / `false` when the tag is
absent. -/
structure VacationArgs where
  days : Option Int
  subject : Option String
  fromAddr : Option String
  addresses : Option (List String)
  mime : Bool
  handle : Option String
  reason : String
deriving DecidableEq, Repr

/-- Embeds `loadVacation` (load_vacation.go): the command starts from
`Days = 7` (RFC 5230 default) and each present tag overwrites its
field; the reason string is the positional argument. -/
def loadVacation (a : VacationArgs) : CmdVacation :=
  { Days := a.days.getD 7
    Subject := a.subject.getD ""
    From := a.fromAddr.getD ""
    Addresses := a.addresses.getD []
    Mime := a.mime
    Handle := a.handle.getD ""
    Reason := a.reason }

/-- Replacement-or-append update of an association list: the model of
Go map assignment `m[k] = v` for `VacationResponses`. -/
def updateAssoc (m : List (String × VacationResponse)) (k : String)
    (v : VacationResponse) : List (String × VacationResponse) :=
  if m.any (fun p => p.1 == k) then
    m.map fun p => if p.1 == k then (k, v) else p
  else m ++ [(k, v)]

/-- Errors the modelled execution can surface to the host. -/
inductive ExecErr where
  | vacationNoSender
  | maxRedirectsExceeded
  | matchErr (e : MatchErr)
deriving DecidableEq, Repr

/-- Result of executing one command: normal completion, the `stop`
sentinel unwinding, or an error. -/
inductive ExecResult where
  | ok | stop | err (e : ExecErr)
deriving DecidableEq, Repr

/-- Is this result an error (as opposed to normal completion or the
`stop` sentinel)? -/
def ExecResult.isErr : ExecResult → Bool
  | .err _ => true
  | _ => false

/-- The delivery-relevant actions a command execution records, used
to state the implicit-keep invariant.  `vacationResp` is emitted
exactly when a `VacationResponse` is stored (a skipped vacation emits
nothing). -/
inductive Action where
  | keep
  | discard
  | fileinto (copy : Bool) (mailbox : String)
  | redirect (copy : Bool) (addr : String)
  | vacationResp (sender : String)
deriving DecidableEq, Repr

/-- A non-`:copy` delivery action: `discard`, `fileinto`/`redirect`
without `:copy`, or a recorded vacation response. -/
def Action.isNonCopyDelivery : Action → Bool
  | .discard => true
  | .fileinto copy _ => !copy
  | .redirect copy _ => !copy
  | .vacationResp _ => true
  | _ => false

/-- Embeds `CmdVacation.Execute` (vacation.go): expand every string
field, default the subject to "Automated reply" when the expansion is
empty; fail when the envelope sender is empty; silently succeed when
the sender is one of the `:addresses`; otherwise store the
`VacationResponse` under the sender and clear the implicit keep.  The
third component instruments which delivery action was recorded. -/
def vacationExecute (c : CmdVacation) (d : RuntimeData) :
    ExecResult × RuntimeData × List Action :=
  let subject0 := expandVars d c.Subject
  let subject := if subject0 = "" then "Automated reply" else subject0
  let fromA := expandVars d c.From
  let reason := expandVars d c.Reason
  let handle := expandVars d c.Handle
  let addresses := expandVarsList d c.Addresses
  let sender := d.EnvelopeFrom
  if sender = "" then (.err .vacationNoSender, d, [])
  else if addresses.contains sender then (.ok, d, [])
  else
    (.ok,
     { d with
        VacationResponses := updateAssoc d.VacationResponses sender
          { From := fromA, Subject := subject, Body := reason,
            IsMime := c.Mime, Handle := handle, Days := c.Days }
        ImplicitKeep := false },
     [.vacationResp sender])

/-! ## Tests -/

/-- Embeds `SizeTest` (tests.go): exactly one of `Over`/`Under` is
set by the loader (`loadSizeTest` rejects `Under == Over`). -/
structure SizeTest where
  Size : Nat
  Over : Bool
  Under : Bool
deriving DecidableEq, Repr

/-- Embeds `SizeTest.Check` (tests.go): strictly greater for `:over`,
strictly smaller for `:under`, false otherwise. -/
def SizeTest.Check (s : SizeTest) (d : RuntimeData) : Bool :=
  if s.Over && d.MsgSize > s.Size then true
  else if s.Under && d.MsgSize < s.Size then true
  else false

/-- Embeds `ExistsTest.Check` (tests.go): walk the (expanded) field
names; any field without values makes the test false, reaching the
end makes it true.  `HeaderGet` of the modelled message is total. -/
def existsCheck (d : RuntimeData) : List String → Bool
  | [] => true
  | field :: rest =>
      if (msgGet d (expandVars d field)).isEmpty then false
      else existsCheck d rest

/-- Embeds `HeaderTest` (tests.go). -/
structure HeaderTest where
  matcherTest : MatcherTest
  Header : List String

/-- The header values a `HeaderTest` walks: every value of every
(expanded) listed header, in order. -/
def headerValuesFor (d : RuntimeData) (hdrs : List String) : List String :=
  hdrs.flatMap fun hdr => msgGet d (expandVars d hdr)

/-- First-match loop over header values shared by `HeaderTest.Check`:
errors propagate at the value where they occur, a match returns true,
exhaustion returns false — the flattened form of the Go nested
loops. -/
def tryMatchFirst (eng : RegexEngine) (m : MatcherTest) (d : RuntimeData) :
    List String → Except MatchErr Bool
  | [] => .ok false
  | v :: vs =>
      match m.tryMatch eng d v with
      | .error e => .error e
      | .ok true => .ok true
      | .ok false => tryMatchFirst eng m d vs

/-- Embeds `HeaderTest.Check` (tests.go): in `:count` mode the number
of values is aggregated and compared; otherwise the first matching
value decides. -/
def HeaderTest.Check (eng : RegexEngine) (h : HeaderTest) (d : RuntimeData) :
    Except MatchErr Bool :=
  if h.matcherTest.isCount then
    .ok (h.matcherTest.countMatches d (headerValuesFor d h.Header).length)
  else
    tryMatchFirst eng h.matcherTest d (headerValuesFor d h.Header)

/-- The test expressions the embedded evaluator handles, a tagged
variant per Sieve test (tests.go); `allof`/`anyof` hold Go slices of
sub-tests. -/
inductive TestExpr where
  | allof (ts : List TestExpr)
  | anyof (ts : List TestExpr)
  | nottest (t : TestExpr)
  | truetest
  | falsetest
  | header (h : HeaderTest)
  | existstest (fields : List String)
  | size (s : SizeTest)

mutual

/-- Embeds the `Check` methods of `AllOfTest`, `AnyOfTest`,
`NotTest`, `TrueTest`, `FalseTest`, `HeaderTest`, `ExistsTest` and
`SizeTest` (tests.go), dispatching on the variant. -/
def evalTest (eng : RegexEngine) (d : RuntimeData) : TestExpr → Except MatchErr Bool
  | .allof ts => evalAllOf eng d ts
  | .anyof ts => evalAnyOf eng d ts
  | .nottest t =>
      match evalTest eng d t with
      | .error e => .error e
      | .ok b => .ok (!b)
  | .truetest => .ok true
  | .falsetest => .ok false
  | .header h => h.Check eng d
  | .existstest fields => .ok (existsCheck d fields)
  | .size s => .ok (s.Check d)

/-- Embeds `AllOfTest.Check` (tests.go): errors propagate, the first
false sub-test short-circuits, the empty list yields true. -/
def evalAllOf (eng : RegexEngine) (d : RuntimeData) : List TestExpr → Except MatchErr Bool
  | [] => .ok true
  | t :: ts =>
      match evalTest eng d t with
      | .error e => .error e
      | .ok false => .ok false
      | .ok true => evalAllOf eng d ts

/-- Embeds `AnyOfTest.Check` (tests.go): errors propagate, the first
true sub-test short-circuits, the empty list yields false. -/
def evalAnyOf (eng : RegexEngine) (d : RuntimeData) : List TestExpr → Except MatchErr Bool
  | [] => .ok false
  | t :: ts =>
      match evalTest eng d t with
      | .error e => .error e
      | .ok true => .ok true
      | .ok false => evalAnyOf eng d ts

end

/-! ## Commands and execution -/

/-- The commands the embedded evaluator handles.  `seq`/`skip` encode
the Go command lists; `ifelse` is the `if`/`else` chain with its test
tree. -/
inductive Command where
  | skip
  | keep
  | discard
  | fileinto (copy : Bool) (mailbox : String)
  | redirect (copy : Bool) (addr : String)
  | vacation (c : CmdVacation)
  | addheader (c : CmdAddHeader)
  | deleteheader (c : CmdDeleteHeader)
  | stop
  | ifelse (t : TestExpr) (thn els : Command)
  | seq (a b : Command)

/-- Modelled from the spec (§4.6, §4.8) together with the embedded
source commands: one step of `Script.Execute`.  `keep` sets `Keep`
and leaves the implicit keep alone; `discard` clears the implicit
keep; `fileinto`/`redirect` append their destination and clear the
implicit keep unless `:copy` (redirect errors beyond `MaxRedirects`);
`stop` raises the sentinel that unwinds without failing; `vacation`,
`addheader` and `deleteheader` are the source embeddings above.  The
returned list records the delivery actions executed. -/
def execCmd (eng : RegexEngine) : Command → RuntimeData → ExecResult × RuntimeData × List Action
  | .skip, d => (.ok, d, [])
  | .keep, d => (.ok, { d with Keep := true }, [.keep])
  | .discard, d => (.ok, { d with ImplicitKeep := false }, [.discard])
  | .fileinto copy mailbox, d =>
      (.ok,
       { d with Mailboxes := d.Mailboxes ++ [mailbox]
                ImplicitKeep := if copy then d.ImplicitKeep else false },
       [.fileinto copy mailbox])
  | .redirect copy addr, d =>
      if d.RedirectAddr.length ≥ d.MaxRedirects then (.err .maxRedirectsExceeded, d, [])
      else
        (.ok,
         { d with RedirectAddr := d.RedirectAddr ++ [addr]
                  ImplicitKeep := if copy then d.ImplicitKeep else false },
         [.redirect copy addr])
  | .vacation c, d => vacationExecute c d
  | .addheader c, d => (.ok, addheaderExecute c d, [])
  | .deleteheader c, d => (.ok, deleteheaderExecute eng c d, [])
  | .stop, d => (.stop, d, [])
  | .ifelse t thn els, d =>
      match evalTest eng d t with
      | .error e => (.err (.matchErr e), d, [])
      | .ok true => execCmd eng thn d
      | .ok false => execCmd eng els d
  | .seq a b, d =>
      match execCmd eng a d with
      | (.ok, d1, t1) =>
          match execCmd eng b d1 with
          | (r, d2, t2) => (r, d2, t1 ++ t2)
      | other => other

/-- Modelled from the spec (§4.6 `stop`, §7): the top level of
`Script.Execute` treats the `stop` sentinel as normal completion. -/
def scriptExecute (eng : RegexEngine) (prog : Command) (d : RuntimeData) :
    ExecResult × RuntimeData × List Action :=
  match execCmd eng prog d with
  | (.stop, d', tr) => (.ok, d', tr)
  | other => other

/-- Modelled from the spec: `NewRuntimeData` — evaluation starts with
the implicit keep set and no recorded actions (§3: `ImplicitKeep`
initially true). -/
def mkRuntimeData (envFrom envTo : String) (hdrs : String → List String)
    (size : Nat) : RuntimeData :=
  { EnvelopeFrom := envFrom
    EnvelopeTo := envTo
    EnvelopeAuth := ""
    MsgHeaders := hdrs
    MsgSize := size
    Variables := []
    ImplicitKeep := true
    Keep := false
    Mailboxes := []
    RedirectAddr := []
    MaxRedirects := 5
    Flags := []
    HeaderEdits := []
    VacationResponses := [] }

/-! ## Concrete fixtures for witnesses -/

/-- A trivial regex engine: every pattern compiles, nothing matches,
nothing times out. -/
def dummyEngine : RegexEngine := ⟨fun _ => .ok, fun _ _ => .notFound⟩

/-- A regex engine on which every match runs over the 100 ms budget. -/
def timeoutEngine : RegexEngine := ⟨fun _ => .ok, fun _ _ => .timeout⟩

/-- A concrete message view: the headers of the test message used by
the repository's execute tests. -/
def sampleHeaders : String → List String := fun name =>
  if name = "subject" then ["I have a present for you"]
  else if name = "from" then ["coyote@desert.example.org"]
  else []

/-- A concrete runtime state over `sampleHeaders` (606-byte message,
envelope sender `from@test.com`). -/
def sampleData : RuntimeData :=
  mkRuntimeData "from@test.com" "to@test.com" sampleHeaders 606

/-! ## The implicit-keep invariant (C1) -/

/-- Core invariant: after executing any command the implicit keep
equals the incoming implicit keep AND-ed with "no non-`:copy`
delivery action was recorded".  Holds for every outcome, including
errors and `stop`. -/
theorem execCmd_implicitKeep (eng : RegexEngine) (c : Command) (d : RuntimeData) :
    (execCmd eng c d).2.1.ImplicitKeep =
      (d.ImplicitKeep && !((execCmd eng c d).2.2.any Action.isNonCopyDelivery)) := by
  induction c generalizing d with
  | skip => simp [execCmd]
  | keep => simp [execCmd, Action.isNonCopyDelivery]
  | discard => simp [execCmd, Action.isNonCopyDelivery]
  | fileinto copy mailbox =>
      cases copy <;> simp [execCmd, Action.isNonCopyDelivery]
  | redirect copy addr =>
      by_cases hmax : d.RedirectAddr.length ≥ d.MaxRedirects
      · simp [execCmd, hmax]
      · cases copy <;> simp [execCmd, hmax, Action.isNonCopyDelivery]
  | vacation c =>
      simp only [execCmd, vacationExecute]
      by_cases hs : d.EnvelopeFrom = ""
      · simp [hs]
      · by_cases ha : d.EnvelopeFrom ∈ expandVarsList d c.Addresses
        · simp [hs, ha]
        · simp [hs, ha, Action.isNonCopyDelivery]
  | addheader c => simp [execCmd, addheaderExecute]
  | deleteheader c => simp [execCmd, deleteheaderExecute]
  | stop => simp [execCmd]
  | ifelse t thn els iht ihe =>
      simp only [execCmd]
      cases h : evalTest eng d t with
      | error e => simp
      | ok b => cases b <;> simp [iht, ihe]
  | seq a b iha ihb =>
      simp only [execCmd]
      cases ha : execCmd eng a d with
      | mk r1 rest =>
        obtain ⟨d1, t1⟩ := rest
        have iha' := iha d
        rw [ha] at iha'
        cases r1 with
        | ok =>
            have ihb' := ihb d1
            dsimp only at iha' ⊢
            rw [ihb', iha']
            simp [List.any_append, Bool.not_or, Bool.and_assoc]
        | stop => simpa using iha'
        | err e => simpa using iha'

/-- C1: for every evaluation that completes without error (normal or
`stop`-unwound), starting from the initial `ImplicitKeep = true`, the
final `ImplicitKeep` is true iff no non-`:copy` delivery action
(`discard`, non-copy `fileinto`/`redirect`, or a recorded vacation
response) was executed; and executing `keep` never changes
`ImplicitKeep`. -/
theorem C1_implicitKeep_iff_no_delivery (eng : RegexEngine) (prog : Command)
    (d : RuntimeData) (r : ExecResult) (d' : RuntimeData) (tr : List Action)
    (h0 : d.ImplicitKeep = true)
    (hrun : execCmd eng prog d = (r, d', tr))
    (hnoerr : r.isErr = false) :
    (d'.ImplicitKeep = true ↔ tr.any Action.isNonCopyDelivery = false)
    ∧ (execCmd eng Command.keep d).2.1.ImplicitKeep = d.ImplicitKeep := by
  have key := execCmd_implicitKeep eng prog d
  rw [hrun] at key
  simp only at key
  constructor
  · rw [key, h0, Bool.true_and]
    cases tr.any Action.isNonCopyDelivery <;> simp
  · simp [execCmd]

/-- Witness for C1 at a concrete run: the spec's scenario 2 script
`fileinto "test"; fileinto "test2"` from the initial state. -/
theorem C1_witness :
    (((execCmd dummyEngine
        (Command.seq (.fileinto false "test") (.fileinto false "test2")) sampleData).2.1.ImplicitKeep
        = true) ↔
      ((execCmd dummyEngine
        (Command.seq (.fileinto false "test") (.fileinto false "test2")) sampleData).2.2.any
          Action.isNonCopyDelivery = false))
    ∧ (execCmd dummyEngine Command.keep sampleData).2.1.ImplicitKeep
        = sampleData.ImplicitKeep :=
  C1_implicitKeep_iff_no_delivery dummyEngine
    (Command.seq (.fileinto false "test") (.fileinto false "test2")) sampleData
    (execCmd dummyEngine
      (Command.seq (.fileinto false "test") (.fileinto false "test2")) sampleData).1
    (execCmd dummyEngine
      (Command.seq (.fileinto false "test") (.fileinto false "test2")) sampleData).2.1
    (execCmd dummyEngine
      (Command.seq (.fileinto false "test") (.fileinto false "test2")) sampleData).2.2
    rfl rfl (by decide)

/-! ## Vacation semantics (C2, C10) -/

/-- C2: executing `vacation` with a non-empty envelope sender either
skips silently when the sender is among the (expanded) `:addresses`
(no response recorded, state untouched), or records a
`VacationResponse` keyed by the sender — with the loader's `Days`
default of 7 and the runtime `Subject` default "Automated reply" —
and clears `ImplicitKeep`. -/
theorem C2_vacation_semantics (c : CmdVacation) (d : RuntimeData)
    (h : d.EnvelopeFrom ≠ "") :
    (d.EnvelopeFrom ∈ expandVarsList d c.Addresses →
        vacationExecute c d = (.ok, d, []))
    ∧ (d.EnvelopeFrom ∉ expandVarsList d c.Addresses →
        vacationExecute c d =
          (.ok,
           { d with
              VacationResponses := updateAssoc d.VacationResponses d.EnvelopeFrom
                { From := expandVars d c.From
                  Subject := if expandVars d c.Subject = "" then "Automated reply"
                             else expandVars d c.Subject
                  Body := expandVars d c.Reason
                  IsMime := c.Mime
                  Handle := expandVars d c.Handle
                  Days := c.Days }
              ImplicitKeep := false },
           [.vacationResp d.EnvelopeFrom]))
    ∧ (∀ a : VacationArgs, a.days = none → (loadVacation a).Days = 7)
    ∧ (∀ a : VacationArgs, a.subject = none → (loadVacation a).Subject = "")
    ∧ expandVars d "" = "" := by
  refine ⟨?_, ?_, ?_, ?_, ?_⟩
  · intro hmem
    simp [vacationExecute, h, hmem]
  · intro hmem
    simp [vacationExecute, h, hmem]
  · intro a ha
    simp [loadVacation, ha]
  · intro a ha
    simp [loadVacation, ha]
  · rfl

/-- Witness for C2: the repository's `BasicVacation` test case —
sender `sender@example.com`, no `:addresses`, no `:subject`. -/
theorem C2_witness :
    ("from@test.com" ∈ expandVarsList sampleData
        (loadVacation ⟨none, none, none, none, false, none, "Away."⟩).Addresses →
      vacationExecute (loadVacation ⟨none, none, none, none, false, none, "Away."⟩)
        sampleData = (.ok, sampleData, []))
    ∧ ("from@test.com" ∉ expandVarsList sampleData
        (loadVacation ⟨none, none, none, none, false, none, "Away."⟩).Addresses →
      vacationExecute (loadVacation ⟨none, none, none, none, false, none, "Away."⟩)
        sampleData =
        (.ok,
         { sampleData with
            VacationResponses := updateAssoc sampleData.VacationResponses "from@test.com"
              { From := expandVars sampleData
                  (loadVacation ⟨none, none, none, none, false, none, "Away."⟩).From
                Subject := if expandVars sampleData
                    (loadVacation ⟨none, none, none, none, false, none, "Away."⟩).Subject = ""
                  then "Automated reply"
                  else expandVars sampleData
                    (loadVacation ⟨none, none, none, none, false, none, "Away."⟩).Subject
                Body := expandVars sampleData
                  (loadVacation ⟨none, none, none, none, false, none, "Away."⟩).Reason
                IsMime := (loadVacation ⟨none, none, none, none, false, none, "Away."⟩).Mime
                Handle := expandVars sampleData
                  (loadVacation ⟨none, none, none, none, false, none, "Away."⟩).Handle
                Days := (loadVacation ⟨none, none, none, none, false, none, "Away."⟩).Days }
            ImplicitKeep := false },
         [.vacationResp "from@test.com"]))
    ∧ (∀ a : VacationArgs, a.days = none → (loadVacation a).Days = 7)
    ∧ (∀ a : VacationArgs, a.subject = none → (loadVacation a).Subject = "")
    ∧ expandVars sampleData "" = "" :=
  C2_vacation_semantics (loadVacation ⟨none, none, none, none, false, none, "Away."⟩)
    sampleData (by decide)

/-- C10: executing `vacation` with an empty envelope sender fails
with an error and leaves the runtime state untouched: no response is
recorded and `ImplicitKeep` keeps its value. -/
theorem C10_vacation_empty_sender (c : CmdVacation) (d : RuntimeData)
    (h : d.EnvelopeFrom = "") :
    vacationExecute c d = (.err .vacationNoSender, d, []) := by
  simp [vacationExecute, h]

/-- Witness for C10 at a concrete state with an empty envelope
sender. -/
theorem C10_witness :
    vacationExecute (loadVacation ⟨none, none, none, none, false, none, "Away."⟩)
      (mkRuntimeData "" "to@test.com" sampleHeaders 606) =
      (.err .vacationNoSender, mkRuntimeData "" "to@test.com" sampleHeaders 606, []) :=
  C10_vacation_empty_sender _ _ (by decide)

/-! ## Regex execution budget (C3) -/

/-- The value actually handed to the regex engine by `testString`:
the `i;ascii-casemap` and `i;unicode-casemap` comparators lower-case
the value first, `i;octet` passes it through. -/
def regexInput : Comparator → String → String
  | .octet, v => v
  | .asciiCasemap, v => toLowerASCII v
  | .unicodeCasemap, v => goToLower v
  | .asciiNumeric, v => v

/-- The execution budget of `DefaultRegexLimits` is exceeded for this
pattern/input pair: the pattern is over 1000 bytes, compilation hits
the 100 ms deadline, the input is over 10000 bytes, or the match hits
the 100 ms deadline. -/
def regexOverBudget (eng : RegexEngine) (pattern value : String) : Bool :=
  pattern.utf8ByteSize > 1000 ||
    (match eng.compile pattern with
     | .timeout => true
     | .compileErr => false
     | .ok =>
         value.utf8ByteSize > 10000 ||
           (match eng.find pattern value with
            | .timeout => true
            | _ => false))

theorem matchRegex_overBudget {eng : RegexEngine} {p v : String}
    (h : regexOverBudget eng p v = true) :
    matchRegex eng p v = (false, [], some MatchErr.limitExceeded) := by
  unfold regexOverBudget at h
  unfold matchRegex CompileSafeRegex SafeFindSubmatch DefaultRegexLimits
  by_cases hp : p.utf8ByteSize > 1000
  · simp [hp]
  · simp only [hp, decide_eq_true_eq, Bool.false_or] at h
    rw [if_neg hp]
    cases hc : eng.compile p with
    | timeout => simp [hc]
    | compileErr => rw [hc] at h; simp at h
    | ok =>
        rw [hc] at h
        simp only
        by_cases hv : v.utf8ByteSize > 10000
        · simp [hv]
        · simp only [hv, decide_eq_true_eq, Bool.false_or] at h
          rw [if_neg hv]
          cases hf : eng.find p v with
          | timeout => simp [hf]
          | notFound => rw [hf] at h; simp at h
          | found caps => rw [hf] at h; simp at h

theorem testString_regex_overBudget {eng : RegexEngine} {comp : Comparator}
    {rel : Relational} {v k : String}
    (hcomp : comp ≠ Comparator.asciiNumeric)
    (h : regexOverBudget eng k (regexInput comp v) = true) :
    testString eng comp .regex rel v k = (false, [], some MatchErr.limitExceeded) := by
  cases comp with
  | octet => simpa [testString, regexInput] using matchRegex_overBudget h
  | asciiCasemap => simpa [testString, regexInput] using matchRegex_overBudget h
  | unicodeCasemap => simpa [testString, regexInput] using matchRegex_overBudget h
  | asciiNumeric => exact absurd rfl hcomp

theorem tryMatchGo_overBudget {eng : RegexEngine} {m : MatcherTest} {d : RuntimeData}
    {v : String}
    (hm : m.matchType = Match.regex)
    (hcomp : m.comparator ≠ Comparator.asciiNumeric) :
    ∀ ks : List String,
      (∀ k ∈ ks, regexOverBudget eng (expandVars d k) (regexInput m.comparator v) = true) →
      MatcherTest.tryMatch.go eng m d v ks = .ok false := by
  intro ks
  induction ks with
  | nil => intro _; rfl
  | cons key rest ih =>
      intro h
      have hk := h key (by simp)
      have hts := @testString_regex_overBudget eng m.comparator m.rel v
        (expandVars d key) hcomp hk
      simp only [MatcherTest.tryMatch.go, hm, hts]
      exact ih fun k hk2 => h k (by simp [hk2])

theorem tryMatch_overBudget {eng : RegexEngine} {m : MatcherTest} {d : RuntimeData}
    {v : String}
    (hm : m.matchType = Match.regex)
    (hcomp : m.comparator ≠ Comparator.asciiNumeric)
    (h : ∀ k ∈ m.keys, regexOverBudget eng (expandVars d k) (regexInput m.comparator v) = true) :
    m.tryMatch eng d v = .ok false :=
  tryMatchGo_overBudget hm hcomp m.keys h

theorem tryMatchFirst_overBudget {eng : RegexEngine} {m : MatcherTest} {d : RuntimeData}
    {vs : List String}
    (hm : m.matchType = Match.regex)
    (hcomp : m.comparator ≠ Comparator.asciiNumeric)
    (h : ∀ v ∈ vs, ∀ k ∈ m.keys,
        regexOverBudget eng (expandVars d k) (regexInput m.comparator v) = true) :
    tryMatchFirst eng m d vs = .ok false := by
  induction vs with
  | nil => rfl
  | cons v rest ih =>
      have hv := tryMatch_overBudget hm hcomp (h v (by simp))
      simp only [tryMatchFirst, hv]
      exact ih fun v' hv' k hk => h v' (by simp [hv']) k hk

/-- C3: when every regex the header test would run is over the
execution budget (pattern over 1000 bytes, input over 10000 bytes, or
the 100 ms deadline in compilation or matching), the test returns
false with no error — generally, an over-budget `matchRegex` reports
the absorbed `limitExceeded` — and an `if` on the test simply takes
its other branch, so evaluation continues. -/
theorem C3_regex_budget_absorbed (eng : RegexEngine) (h : HeaderTest)
    (d : RuntimeData) (thn els : Command)
    (hm : h.matcherTest.matchType = Match.regex)
    (hcomp : h.matcherTest.comparator ≠ Comparator.asciiNumeric)
    (hover : ∀ v ∈ headerValuesFor d h.Header, ∀ k ∈ h.matcherTest.keys,
        regexOverBudget eng (expandVars d k)
          (regexInput h.matcherTest.comparator v) = true) :
    h.Check eng d = .ok false
    ∧ (∀ p v, regexOverBudget eng p v = true →
        matchRegex eng p v = (false, [], some MatchErr.limitExceeded))
    ∧ execCmd eng (.ifelse (.header h) thn els) d = execCmd eng els d := by
  have hcount : h.matcherTest.isCount = false := by
    simp [MatcherTest.isCount, hm]
  have hchk : h.Check eng d = .ok false := by
    simp only [HeaderTest.Check, hcount, if_false, Bool.false_eq_true]
    exact tryMatchFirst_overBudget hm hcomp hover
  refine ⟨hchk, fun p v hb => matchRegex_overBudget hb, ?_⟩
  simp only [execCmd, evalTest, hchk]

/-- Witness for C3: an engine whose matches always hit the 100 ms
deadline, a `header :regex` test over the sample message. -/
theorem C3_witness :
    HeaderTest.Check timeoutEngine
      ⟨⟨.octet, .regex, .unspecified, ["pat"]⟩, ["subject"]⟩ sampleData = .ok false
    ∧ (∀ p v, regexOverBudget timeoutEngine p v = true →
        matchRegex timeoutEngine p v = (false, [], some MatchErr.limitExceeded))
    ∧ execCmd timeoutEngine
        (.ifelse (.header ⟨⟨.octet, .regex, .unspecified, ["pat"]⟩, ["subject"]⟩)
          Command.keep Command.skip) sampleData
        = execCmd timeoutEngine Command.skip sampleData :=
  C3_regex_budget_absorbed timeoutEngine
    ⟨⟨.octet, .regex, .unspecified, ["pat"]⟩, ["subject"]⟩ sampleData
    Command.keep Command.skip rfl (by decide) (by decide)

/-! ## allof / anyof on the empty list (C4) -/

/-- C4 counterexample: the claim says `allof` of an empty test list
evaluates to false, but `AllOfTest.Check` falls through its loop and
returns true at this concrete state. -/
theorem C4_counterexample :
    evalTest dummyEngine sampleData (TestExpr.allof []) = .ok true
    ∧ evalTest dummyEngine sampleData (TestExpr.allof []) ≠ .ok false := by
  constructor
  · rfl
  · intro hcontra
    rw [show evalTest dummyEngine sampleData (TestExpr.allof []) = .ok true from rfl] at hcontra
    simp at hcontra

/-- C4 (amended): for every engine and state, `allof` of an empty
test list evaluates to **true** (the identity of conjunction) and
`anyof` of an empty test list evaluates to false. -/
theorem C4_empty_allof_anyof (eng : RegexEngine) (d : RuntimeData) :
    evalTest eng d (TestExpr.allof []) = .ok true
    ∧ evalTest eng d (TestExpr.anyof []) = .ok false :=
  ⟨rfl, rfl⟩

/-! ## Size test (C5) -/

/-- The spec's scenario 3 script: `if size :over 606 { keep; }`. -/
def sizeProgram606 : Command :=
  .ifelse (.size { Size := 606, Over := true, Under := false }) Command.keep Command.skip

/-- C5: `size :over N` holds iff the message size is strictly greater
than `N`, `size :under N` iff strictly smaller; consequently the
scenario script `if size :over 606 { keep; }` on a 606-byte message
ends with `Keep = false` and `ImplicitKeep = true`. -/
theorem C5_size_strict (d : RuntimeData) :
    (∀ s : SizeTest, s.Over = true → s.Under = false →
        (s.Check d = true ↔ d.MsgSize > s.Size))
    ∧ (∀ s : SizeTest, s.Over = false → s.Under = true →
        (s.Check d = true ↔ d.MsgSize < s.Size))
    ∧ (∀ eng : RegexEngine,
        (execCmd eng sizeProgram606 (mkRuntimeData "f@t" "t@t" (fun _ => []) 606)).2.1.Keep
            = false
        ∧ (execCmd eng sizeProgram606
            (mkRuntimeData "f@t" "t@t" (fun _ => []) 606)).2.1.ImplicitKeep = true) := by
  refine ⟨?_, ?_, ?_⟩
  · intro s hov hun
    simp [SizeTest.Check, hov, hun]
  · intro s hov hun
    simp [SizeTest.Check, hov, hun]
  · intro eng
    exact ⟨rfl, rfl⟩

/-- Witness for C5 at the concrete test `size :over 606` and the
606-byte sample state (both sides of the iff false). -/
theorem C5_witness :
    (SizeTest.Check { Size := 606, Over := true, Under := false } sampleData = true ↔
      sampleData.MsgSize > 606) :=
  (C5_size_strict sampleData).1 { Size := 606, Over := true, Under := false } rfl rfl

/-! ## exists test (C6) -/

/-- C6: the `exists` test is true iff **every** listed header has at
least one value in the (edit-overlaid) message view; equivalently it
computes the conjunction of non-emptiness over the listed fields, so
any absent header makes it false. -/
theorem C6_exists_all_headers (d : RuntimeData) (fields : List String) :
    existsCheck d fields = fields.all (fun f => !(msgGet d (expandVars d f)).isEmpty)
    ∧ (existsCheck d fields = true ↔
        ∀ f ∈ fields, msgGet d (expandVars d f) ≠ []) := by
  have heq : existsCheck d fields
      = fields.all (fun f => !(msgGet d (expandVars d f)).isEmpty) := by
    induction fields with
    | nil => rfl
    | cons f rest ih =>
        simp only [existsCheck, List.all_cons]
        by_cases hf : (msgGet d (expandVars d f)).isEmpty
        · simp [hf]
        · simp [hf, ih]
  refine ⟨heq, ?_⟩
  rw [heq]
  simp [List.all_eq_true, List.isEmpty_iff]

/-! ## Subaddress `:detail` without separator (C7) -/

/-- Decidable form of "the address has no subaddress separator in its
local part": when `split` succeeds the local part does not contain
the separator; a malformed address has no local part. -/
def noSeparatorInLocal (addr : String) : Bool :=
  match split addr with
  | .ok (localPart, _) => !goContains localPart SubaddressSeparator
  | .error _ => true

theorem splitSubaddress_no_separator {lp : String}
    (h : goContains lp SubaddressSeparator = false) :
    splitSubaddress lp = (lp, "") := by
  unfold splitSubaddress
  have : goIndex lp SubaddressSeparator = none :=
    (goIndexList_none_iff _ _).mpr h
  rw [this]

/-- C7: an `address`/`envelope` test with the `:detail` address part
fails to match (returns false, no error) on every address whose local
part contains no subaddress separator — whatever the comparator,
match-type and key list of the matcher.  (The empty and `<>`
addresses have no local part and are excluded.) -/
theorem C7_detail_requires_separator (eng : RegexEngine) (d : RuntimeData)
    (matcher : MatcherTest) (addr : String)
    (h1 : addr ≠ "") (h2 : addr ≠ "<>")
    (h3 : noSeparatorInLocal addr = true) :
    testAddress eng d matcher .detail addr = .ok false := by
  unfold testAddress
  rw [if_neg h2]
  simp only [h1, ne_eq, not_false_eq_true, if_true]
  unfold noSeparatorInLocal at h3
  cases hsp : split addr with
  | error e => rfl
  | ok p =>
      obtain ⟨lp, dom⟩ := p
      rw [hsp] at h3
      dsimp only at h3 ⊢
      have h3' : goContains lp SubaddressSeparator = false := by
        simpa using h3
      rw [splitSubaddress_no_separator h3']
      simp [h3']

/-- Witness for C7: `coyote@desert.example.org` (no `+` in the local
part) against an `:is` matcher with the empty key. -/
theorem C7_witness :
    testAddress dummyEngine sampleData
      ⟨Comparator.asciiCasemap, Match.is, Relational.unspecified, [""]⟩
      AddressPart.detail "coyote@desert.example.org" = .ok false :=
  C7_detail_requires_separator dummyEngine sampleData
    ⟨Comparator.asciiCasemap, Match.is, Relational.unspecified, [""]⟩
    "coyote@desert.example.org" (by decide) (by decide) (by decide)

/-! ## editheader protected / invalid names (C8) -/

/-- C8: `deleteheader` on a protected header (`Received` or
`Auto-Submitted` after lower-casing the expanded name) or on an
invalid field name completes without error and leaves the whole
runtime state — in particular `HeaderEdits` — unchanged; `addheader`
with an invalid field name likewise appends no journal entry and
returns no error. -/
theorem C8_editheader_silently_ignored (eng : RegexEngine)
    (c : CmdDeleteHeader) (ca : CmdAddHeader) (d : RuntimeData)
    (h1 : isValidHeaderName (expandVars d c.FieldName) = false ∨
          goToLower (expandVars d c.FieldName) = "received" ∨
          goToLower (expandVars d c.FieldName) = "auto-submitted")
    (h2 : isValidHeaderName (expandVars d ca.FieldName) = false) :
    execCmd eng (.deleteheader c) d = (.ok, d, [])
    ∧ execCmd eng (.addheader ca) d = (.ok, d, []) := by
  constructor
  · have hedits : deleteheaderEdits eng c d = [] := by
      unfold deleteheaderEdits
      rcases h1 with hinv | hrec | hauto
      · simp [hinv]
      · have hprot : isProtectedHeader (expandVars d c.FieldName) = true := by
          simp [isProtectedHeader, hrec]
        by_cases hinv : isValidHeaderName (expandVars d c.FieldName)
        · simp [hinv, hprot]
        · simp [hinv]
      · have hprot : isProtectedHeader (expandVars d c.FieldName) = true := by
          simp [isProtectedHeader, hauto]
        by_cases hinv : isValidHeaderName (expandVars d c.FieldName)
        · simp [hinv, hprot]
        · simp [hinv]
    simp only [execCmd, deleteheaderExecute, hedits, List.append_nil]
  · have hedits : addheaderEdits ca d = [] := by
      unfold addheaderEdits
      simp [h2]
    simp only [execCmd, addheaderExecute, hedits, List.append_nil]

/-- Witness for C8: deleting `Received` and adding the invalid name
`Bad:Name` at the sample state. -/
theorem C8_witness :
    execCmd dummyEngine
      (.deleteheader ⟨⟨.asciiCasemap, .unspecified, .unspecified, []⟩,
        "Received", [], 0, false⟩) sampleData = (.ok, sampleData, [])
    ∧ execCmd dummyEngine (.addheader ⟨"Bad:Name", "v", false⟩) sampleData
        = (.ok, sampleData, []) :=
  C8_editheader_silently_ignored dummyEngine
    ⟨⟨.asciiCasemap, .unspecified, .unspecified, []⟩, "Received", [], 0, false⟩
    ⟨"Bad:Name", "v", false⟩ sampleData (by decide) (by decide)

/-! ## i;ascii-numeric (C9) -/

/-- Does the string begin with a Unicode decimal digit? -/
def firstIsDigit (s : String) : Bool :=
  match s.data with
  | [] => false
  | c :: _ => goIsDigit c

/-- The maximal leading run of Unicode decimal digits. -/
def leadingDigits (s : String) : List Char := s.data.takeWhile goIsDigit

/-- C9 counterexample: the claim says the numeric value is `None`
exactly when the string does not begin with a decimal digit, but
`numericValue` also returns `None` for `"18446744073709551616"`
(= 2^64, overflowing `ParseUint`'s 64 bits) and for `"1٣"` (whose
digit run contains a non-ASCII digit), both of which begin with a
decimal digit. -/
theorem C9_counterexample :
    numericValue "18446744073709551616" = none
    ∧ firstIsDigit "18446744073709551616" = true
    ∧ numericValue "1٣" = none
    ∧ firstIsDigit "1٣" = true := by
  refine ⟨by decide, by decide, by decide, by decide⟩

/-- C9 (amended): under `i;ascii-numeric` the numeric value of a
string is `None` exactly when the string does not begin with a
decimal digit **or** its maximal leading run of digits is not a
parseable 64-bit decimal (it contains a non-ASCII digit or its value
exceeds 2^64−1); otherwise it is the integer denoted by that run.
The `:is` and `:value` match-types compare these numeric values with
`CompareNumericValue`, under which presence of digits beats absence
(`None` sorts above every number, `None = None`). -/
theorem C9_numericValue_characterisation (s : String) :
    (numericValue s = none ↔
      (firstIsDigit s = false ∨ (leadingDigits s).all isAsciiDigit = false ∨
        2 ^ 64 ≤ digitsToNat (leadingDigits s)))
    ∧ (∀ v, numericValue s = some v → v = digitsToNat (leadingDigits s))
    ∧ (∀ eng rel v k, testString eng .asciiNumeric .value rel v k =
        (rel.CompareNumericValue (numericValue v) (numericValue k), [], none))
    ∧ (∀ eng rel v k, testString eng .asciiNumeric .is rel v k =
        (Relational.eq.CompareNumericValue (numericValue v) (numericValue k), [], none)) := by
  refine ⟨?_, ?_, fun eng rel v k => rfl, fun eng rel v k => rfl⟩
  · unfold numericValue firstIsDigit leadingDigits goParseUint64
    cases hd : s.data with
    | nil => simp
    | cons c rest =>
        by_cases hc : goIsDigit c
        · have hne : ¬ ((c :: rest).takeWhile goIsDigit).isEmpty = true := by
            simp [List.takeWhile_cons, hc]
          simp only [hc, Bool.not_true, Bool.false_eq_true, if_false, hne,
            Bool.true_eq_false, false_or]
          by_cases hall : ((c :: rest).takeWhile goIsDigit).all isAsciiDigit
          · simp only [hall, if_true]
            by_cases hlt : digitsToNat ((c :: rest).takeWhile goIsDigit) < 2 ^ 64
            · simp [hlt]
            · simp [hlt]
          · simp [hall]
        · simp [hc]
  · intro v hv
    unfold numericValue goParseUint64 at hv
    unfold leadingDigits
    cases hd : s.data with
    | nil => rw [hd] at hv; simp at hv
    | cons c rest =>
        rw [hd] at hv
        by_cases hc : goIsDigit c
        · simp only [hc, Bool.not_true, Bool.false_eq_true, if_false] at hv
          by_cases hemp : ((c :: rest).takeWhile goIsDigit).isEmpty
          · rw [if_pos hemp] at hv; simp at hv
          · rw [if_neg hemp] at hv
            by_cases hall : ((c :: rest).takeWhile goIsDigit).all isAsciiDigit
            · rw [if_pos hall] at hv
              by_cases hlt : digitsToNat ((c :: rest).takeWhile goIsDigit) < 2 ^ 64
              · rw [if_pos hlt] at hv
                exact (Option.some_inj.mp hv).symm
              · rw [if_neg hlt] at hv; simp at hv
            · rw [if_neg hall] at hv; simp at hv
        · simp [hc] at hv

end GoSieve
